import Mathlib

/-!
Verification development for the KY-6 congressional district map generator
(src/cd6_map.py).  The geometry kernel the script delegates to (shapely /
GEOS) is modelled over rectilinear geometries: a geometry is a finite union
of axis-aligned boxes with integer fixed-point coordinates (latitude and
longitude are kept in tenths of a degree, so the script's literal 38.6
appears as 386).  On this class the set-theoretic contracts of the library
operations (intersection, difference, intersects, is_empty, is_valid,
buffer(0), centroid, representative_point) hold exactly and are executable.
The script's own control flow (filtering, the clip loop with its per-county
exception handling, the draw order of the four layer blocks, the label
dispatch on geom_type, and the address checker checkIfInDistrict) is
translated statement by statement.
-/

namespace CD6Map

/-- A closed axis-aligned box `[x1, x2] × [y1, y2]` in planar fixed-point
coordinates.  A box with `x1 = x2` or `y1 = y2` is degenerate (a segment or a
point); it models the lower-dimensional pieces GEOS returns from boundary
contacts.  A box with `x2 < x1` or `y2 < y1` denotes the empty set and
stands in for invalid geometry. -/
structure Box where
  x1 : ℤ
  x2 : ℤ
  y1 : ℤ
  y2 : ℤ
deriving DecidableEq, Repr

/-- A polygon or multipolygon: a finite union of boxes. -/
abbrev Geometry := List Box

/-- Closed intersection of two boxes (may be degenerate or empty). -/
def Box.inter (b c : Box) : Box :=
  { x1 := max b.x1 c.x1, x2 := min b.x2 c.x2, y1 := max b.y1 c.y1, y2 := min b.y2 c.y2 }

/-- True iff the closed point sets of the two boxes share at least one point
(boundary contact counts, as for the GEOS intersects predicate). -/
def Box.touches (b c : Box) : Bool :=
  decide (max b.x1 c.x1 ≤ min b.x2 c.x2) && decide (max b.y1 c.y1 ≤ min b.y2 c.y2)

/-- True iff the two boxes overlap with positive area (their interiors meet). -/
def Box.posOverlap (b c : Box) : Bool :=
  decide (max b.x1 c.x1 < min b.x2 c.x2) && decide (max b.y1 c.y1 < min b.y2 c.y2)

/-- Signed area of a box (nonnegative for well-formed boxes). -/
def Box.area (b : Box) : ℤ := (b.x2 - b.x1) * (b.y2 - b.y1)

/-- A box is proper when its coordinate intervals are nonempty. -/
def Box.properB (b : Box) : Bool := decide (b.x1 ≤ b.x2) && decide (b.y1 ≤ b.y2)

/-- A box has positive area iff both its intervals are nondegenerate. -/
def Box.posAreaB (b : Box) : Bool := decide (b.x1 < b.x2) && decide (b.y1 < b.y2)

/-- Models `a.intersection(b)` on polygons (line 82 of the script): the
pairwise box intersections of the two unions.  Degenerate boxes are kept:
GEOS likewise returns lower-dimensional pieces for boundary-only contact,
which is why the script's `is_empty` test at line 83 passes for them. -/
def intersectionG (g h : Geometry) : Geometry :=
  g.flatMap (fun b => (h.filter (fun c => b.touches c)).map (fun c => b.inter c))

/-- Models `a.intersects(b)` (lines 76 and 137): the closed point sets meet. -/
def intersectsG (g h : Geometry) : Bool :=
  g.any (fun b => h.any (fun c => b.touches c))

/-- Guillotine split of `b` around `c`: the closed parts of `b` away from the
interior of `c`.  Degenerate pieces are discarded because a GEOS difference
of two polygons is polygonal (its lower-dimensional slivers never appear);
when the overlap has no interior the whole of `b` survives. -/
def Box.diff (b c : Box) : List Box :=
  if b.posOverlap c then
    [Box.mk b.x1 (max b.x1 c.x1) b.y1 b.y2,
     Box.mk (min b.x2 c.x2) b.x2 b.y1 b.y2,
     Box.mk (max b.x1 c.x1) (min b.x2 c.x2) b.y1 (max b.y1 c.y1),
     Box.mk (max b.x1 c.x1) (min b.x2 c.x2) (min b.y2 c.y2) b.y2].filter Box.posAreaB
  else [b]

/-- Models `a.difference(b)` on polygons (line 161): subtract every box of
the second geometry from every piece of the first. -/
def differenceG (g h : Geometry) : Geometry :=
  h.foldl (fun acc c => acc.flatMap (fun b => b.diff c)) g

/-- Total area of a geometry, exact for unions of boxes with pairwise
disjoint interiors. -/
def totalArea (g : Geometry) : ℤ := (g.map Box.area).sum

/-- Models `.buffer(0)` (line 97), the script's repair primitive: on this
class it keeps the positive-area part of the geometry unchanged and
collapses degenerate or malformed parts to nothing, so a valid polygon
passes through unchanged, a zero-area result becomes empty, and an input
that cannot be normalized degenerates to empty instead of raising. -/
def buffer0 (g : Geometry) : Geometry := g.filter Box.posAreaB

/-- Models `.is_valid` (line 83): every box is proper. -/
def isValidG (g : Geometry) : Bool := g.all Box.properB

/-- Spec classification tags {DISJOINT, CONTAINED, PARTIAL};
`partlyIn` renders the spec's PARTIAL. -/
inductive Classification
  | disjoint
  | contained
  | partlyIn
deriving DecidableEq, Repr

/-- Spec `clipIn(region, candidate)`: the set intersection the script
computes at line 82 (`county.geometry.intersection(ky6_geom)`). -/
def clipIn (region cand : Geometry) : Geometry := intersectionG cand region

/-- Spec `clipOut(region, candidate)`: the set difference the script
computes at line 161 (`county.geometry.difference(ky6_geom)`). -/
def clipOut (region cand : Geometry) : Geometry := differenceG cand region

/-- The classifier induced by the script's routing: a county that fails the
`intersects` test (lines 76 and 137) is DISJOINT; an intersecting county
whose outside part (line 161) is empty is CONTAINED (no grey remainder is
drawn, line 162); otherwise PARTIAL. -/
def classify (region cand : Geometry) : Classification :=
  if intersectsG cand region then
    if (clipOut region cand).isEmpty then Classification.contained
    else Classification.partlyIn
  else Classification.disjoint

/-- A county record: `NAME`, `STATEFP` and its polygon. -/
structure County where
  name : String
  statefp : String
  geom : Geometry
deriving DecidableEq, Repr

/-- A congressional district record: `STATEFP`, `CD119FP` and its polygon. -/
structure District where
  statefp : String
  cd119fp : String
  geom : Geometry
deriving DecidableEq, Repr

/-- A per-county failure report (the script prints these at lines 88 and 90;
here they are collected). -/
structure Warning where
  county : String
  reason : String
deriving DecidableEq, Repr

/-- Line 72: `counties[counties.STATEFP == 21]`. -/
def kyFilter (counties : List County) : List County :=
  counties.filter (fun c => c.statefp == "21")

/-- Line 76: the counties whose geometry intersects the district. -/
def intersectingOf (region : Geometry) (ky : List County) : List County :=
  ky.filter (fun c => intersectsG c.geom region)

/-- Line 137: the counties whose geometry does not intersect the district. -/
def outsideOf (region : Geometry) (ky : List County) : List County :=
  ky.filter (fun c => !intersectsG c.geom region)

/-- The clip loop of lines 80-91.  `op` stands for the library call
`county.geometry.intersection(ky6_geom)`, which may raise (modelled by
`Except.error`).  A successful nonempty valid result is kept with the
clipped geometry; an empty or invalid result is skipped with a warning
(line 88); an exception is caught, reported, and the loop continues
(lines 89-91). -/
def clipCounties (op : County → Except String Geometry) :
    List County → List County × List Warning
  | [] => ([], [])
  | c :: rest =>
    let acc := clipCounties op rest
    match op c with
    | Except.ok g =>
      if !g.isEmpty && isValidG g then ({ c with geom := g } :: acc.1, acc.2)
      else (acc.1, { county := c.name, reason := "geometry issues" } :: acc.2)
    | Except.error e => (acc.1, { county := c.name, reason := e } :: acc.2)

/-- Lines 79-97: the intersecting counties run through the clip loop,
then the collected frame is rebuilt and its geometry column repaired with
`.buffer(0)` (lines 93-97).  When the loop kept no county at all, the
rebuilt frame has no geometry column, and the column access
`clipped_counties['geometry']` at line 97 raises an unhandled KeyError that
escapes create_ky6_map: the empty-survivor path is a run abort, not an
empty result. -/
def clippedOf (op : Geometry → Geometry → Except String Geometry)
    (region : Geometry) (ky : List County) : Except String (List County) :=
  let kept := (clipCounties (fun c => op c.geom region) (intersectingOf region ky)).1
  if kept.isEmpty then Except.error "KeyError: geometry"
  else Except.ok (kept.map (fun c => { c with geom := buffer0 c.geom }))

/-- An exact planar coordinate with an explicit positive denominator:
the point `(nx / den, ny / den)`.  Centroids of box unions are rational, so
anchors carry their denominator instead of rounding. -/
structure Anchor where
  nx : ℤ
  ny : ℤ
  den : ℤ
deriving DecidableEq, Repr

/-- Membership of the rational point `(a.nx / a.den, a.ny / a.den)` in a
closed box, written multiplied through by the positive denominator. -/
def Box.memA (b : Box) (a : Anchor) : Bool :=
  decide (b.x1 * a.den ≤ a.nx) && decide (a.nx ≤ b.x2 * a.den) &&
  decide (b.y1 * a.den ≤ a.ny) && decide (a.ny ≤ b.y2 * a.den)

/-- Membership of a rational anchor point in a geometry. -/
def containsA (g : Geometry) (a : Anchor) : Bool := g.any (fun b => b.memA a)

/-- Models `.centroid` (line 235): the area-weighted centroid of the union,
`(sum area*(x1+x2), sum area*(y1+y2)) / (2 * total area)`. -/
def centroidA (g : Geometry) : Anchor :=
  { nx := (g.map (fun b => b.area * (b.x1 + b.x2))).sum,
    ny := (g.map (fun b => b.area * (b.y1 + b.y2))).sum,
    den := 2 * totalArea g }

/-- Models `.representative_point()` (line 237): a point guaranteed to lie
within the geometry; here the center of its first positive-area box. -/
def reprPointA (g : Geometry) : Anchor :=
  match g.filter Box.posAreaB with
  | [] => { nx := 0, ny := 0, den := 1 }
  | b :: _ => { nx := b.x1 + b.x2, ny := b.y1 + b.y2, den := 2 }

/-- Geometry kind tags, mirroring the `geom_type` strings tested at
lines 234-238: 'Polygon', 'MultiPolygon', and anything else. -/
inductive GeomType
  | Polygon
  | MultiPolygon
  | Other
deriving DecidableEq, Repr

/-- The boxes of `rest` that touch some box of `comp`, and the others. -/
def pickTouching (comp : List Box) : List Box → List Box × List Box
  | [] => ([], [])
  | b :: rest =>
    let p := pickTouching comp rest
    if comp.any (fun c => c.touches b) then (b :: p.1, p.2) else (p.1, b :: p.2)

/-- Fueled closure: the boxes of `rest` not reachable from `comp` through
chains of touching boxes. -/
def reachRest : Nat → List Box → List Box → List Box
  | 0, _, rest => rest
  | n + 1, comp, rest =>
    let p := pickTouching comp rest
    if p.1.isEmpty then rest else reachRest n (comp ++ p.1) p.2

/-- Fueled count of connected components of the box-adjacency graph. -/
def componentCount : Nat → List Box → Nat
  | _, [] => 0
  | 0, _ => 1
  | n + 1, b :: rest => 1 + componentCount n (reachRest rest.length [b] rest)

/-- Models `.geom_type`: a connected positive-area union is a 'Polygon', a
disconnected one a 'MultiPolygon', and a geometry with no positive-area part
(a point or line result) is of some other kind. -/
def geomType (g : Geometry) : GeomType :=
  if (g.filter Box.posAreaB).isEmpty then GeomType.Other
  else if componentCount g.length g ≤ 1 then GeomType.Polygon
  else GeomType.MultiPolygon

/-- The label-anchor dispatch of lines 234-239: a 'Polygon' gets its
centroid, a 'MultiPolygon' its representative point, and any other kind
makes the script `continue` without placing a marker. -/
def anchorOf (g : Geometry) : Option Anchor :=
  match geomType g with
  | GeomType.Polygon => some (centroidA g)
  | GeomType.MultiPolygon => some (reprPointA g)
  | GeomType.Other => none

/-- Style category of an emitted layer: grey excluded fill, the blue
district boundary, or the highlighted included fill. -/
inductive Tag
  | excluded
  | boundary
  | included
deriving DecidableEq, Repr

/-- An element added to the folium map: a styled GeoJson layer (with its
tooltip name) or a county-name marker at an anchor point. -/
inductive MapElem
  | layer (tag : Tag) (geom : Geometry) (name : Option String)
  | marker (pos : Anchor) (label : String)
deriving DecidableEq, Repr

/-- The style tag of an element (markers carry none). -/
def elemTag : MapElem → Option Tag
  | MapElem.layer t _ _ => some t
  | MapElem.marker _ _ => none

/-- Lines 140-155: full geometry of every non-intersecting county, grey. -/
def outsideLayers (region : Geometry) (ky : List County) : List MapElem :=
  (outsideOf region ky).map (fun c => MapElem.layer Tag.excluded c.geom (some c.name))

/-- Lines 158-176: for every intersecting county, the part outside the
district, grey, skipped when that part is empty (line 162). -/
def outsidePartLayers (region : Geometry) (ky : List County) : List MapElem :=
  (intersectingOf region ky).filterMap (fun c =>
    if (clipOut region c.geom).isEmpty then none
    else some (MapElem.layer Tag.excluded (clipOut region c.geom) (some c.name)))

/-- Lines 179-188: the district boundary outline. -/
def boundaryLayer (region : Geometry) : MapElem :=
  MapElem.layer Tag.boundary region none

/-- Lines 191-247, one county of `clipped_counties`: an empty geometry is
skipped with a warning (lines 195-197); otherwise the county layer is added
(line 231) and then, only when the geom_type dispatch resolves an anchor,
a name marker is added (lines 234-247). -/
def includedEntry (c : County) : List MapElem :=
  if c.geom.isEmpty then []
  else
    MapElem.layer Tag.included c.geom (some c.name) ::
      (match anchorOf c.geom with
       | some a => [MapElem.marker a c.name]
       | none => [])

/-- Lines 191-247: the included layers and markers, in county order. -/
def includedElems (clipped : List County) : List MapElem :=
  clipped.flatMap includedEntry

/-- The draw order of create_ky6_map: grey full outside counties
(lines 140-155), then grey outside parts of intersecting counties
(lines 158-176), then the district boundary (lines 179-188), then the
clipped-in counties with their labels (lines 191-247). -/
def composeMap (region : Geometry) (ky clipped : List County) : List MapElem :=
  outsideLayers region ky ++ outsidePartLayers region ky ++
    [boundaryLayer region] ++ includedElems clipped

/-- Line 63: the district row with STATEFP 21 and CD119FP 06, if any. -/
def findDistrict (districts : List District) : Option District :=
  (districts.filter (fun d => d.statefp == "21" && d.cd119fp == "06")).head?

/-- Outcome of one run of the script: the clean early return None with a
diagnostic when the district row is missing (lines 65-69), an unhandled
exception escaping the function (such as the line-97 KeyError when the clip
loop kept no county), or the composed map. -/
inductive RunResult
  | missingDistrict
  | crashed (msg : String)
  | map (elems : List MapElem)
deriving DecidableEq, Repr

/-- Whether a run outcome is an unhandled exception. -/
def RunResult.isCrash : RunResult → Bool
  | RunResult.crashed _ => true
  | _ => false

/-- The overlay pipeline of create_ky6_map (lines 50-247).  `op` stands for
the fallible library intersection used inside the guarded clip loop.  A
missing district row yields the handled early return of lines 65-69; a clip
loop with no surviving county crashes at the repair step (line 97);
otherwise the composed map is produced. -/
def create_ky6_map (op : Geometry → Geometry → Except String Geometry)
    (districts : List District) (counties : List County) : RunResult :=
  match findDistrict districts with
  | none => RunResult.missingDistrict
  | some d =>
    match clippedOf op d.geom (kyFilter counties) with
    | Except.error e => RunResult.crashed e
    | Except.ok clipped =>
      RunResult.map (composeMap d.geom (kyFilter counties) clipped)

/-- The hardcoded rectangle of checkIfInDistrict (lines 389-394), in tenths
of a degree: north 38.6, south 37.4, east -83.8, west -85.2. -/
structure BBoxBounds where
  north : ℤ
  south : ℤ
  east : ℤ
  west : ℤ
deriving DecidableEq, Repr

/-- The literal `bounds` object of line 389. -/
def ky6Bounds : BBoxBounds := { north := 386, south := 374, east := -838, west := -852 }

/-- Lines 384-398: the address checker's exposed containment answer, a pure
comparison of the queried coordinate against the hardcoded rectangle; no
polygon is consulted. -/
def checkIfInDistrict (lat lon : ℤ) : Bool :=
  decide (ky6Bounds.south ≤ lat) && decide (lat ≤ ky6Bounds.north) &&
  decide (ky6Bounds.west ≤ lon) && decide (lon ≤ ky6Bounds.east)

/-- A query coordinate (x is longitude, y is latitude, fixed-point). -/
structure Pt where
  x : ℤ
  y : ℤ
deriving DecidableEq, Repr

/-- Closed-box membership of a query point. -/
def Box.memPt (b : Box) (p : Pt) : Bool :=
  decide (b.x1 ≤ p.x) && decide (p.x ≤ b.x2) &&
  decide (b.y1 ≤ p.y) && decide (p.y ≤ b.y2)

/-- The exact point-in-polygon test against a geometry: the authoritative
containment of spec section 4.5. -/
def containsG (g : Geometry) (p : Pt) : Bool := g.any (fun b => b.memPt p)

/-- Pairwise interior-disjointness of the boxes of a geometry: the
well-formedness under which box areas add up to the area of the union. -/
def noOverlapG : Geometry → Bool
  | [] => true
  | b :: rest => rest.all (fun c => !b.posOverlap c) && noOverlapG rest

/-- Length of the intersection of the closed intervals `[lo, hi]` and `[u, v]`. -/
def clampLen (lo hi u v : ℤ) : ℤ := max 0 (min hi v - max lo u)

/-- Area of the intersection of two boxes, expressed through interval
clamping (zero whenever the boxes do not overlap with positive area). -/
def clampArea (b c : Box) : ℤ :=
  clampLen b.x1 b.x2 c.x1 c.x2 * clampLen b.y1 b.y2 c.y1 c.y2

/-- Total overlap area between the boxes of `l` and the boxes of `h`,
summed over all pairs. -/
def pairSum (l : List Box) (h : Geometry) : ℤ :=
  (h.map (fun c => (l.map (fun b => clampArea b c)).sum)).sum

/-- Concrete U-shaped region: the union `[0,3]×[0,1] ∪ [0,1]×[1,3] ∪ [2,3]×[1,3]`,
a connected but non-convex polygon. -/
def uRegion : Geometry := [Box.mk 0 3 0 1, Box.mk 0 1 1 3, Box.mk 2 3 1 3]

/-- Concrete candidate covering the U-shaped region: the square `[0,3]×[0,3]`. -/
def uCand : Geometry := [Box.mk 0 3 0 3]

/-- Concrete unit-square region for the boundary-touch scenario. -/
def tRegion : Geometry := [Box.mk 0 1 0 1]

/-- Concrete candidate sharing exactly the edge `x = 1` with `tRegion`. -/
def tCand : Geometry := [Box.mk 1 2 0 1]

/-- Concrete square region `[0,10]×[0,10]` (the spec's scenario region). -/
def sRegion : Geometry := [Box.mk 0 10 0 10]

/-- Concrete candidate `[5,15]×[0,10]`, half inside `sRegion`. -/
def sCand : Geometry := [Box.mk 5 15 0 10]

/-- Concrete county fully away from `sRegion`. -/
def cOut : County := County.mk "Casey" "21" [Box.mk 20 30 20 30]

/-- Concrete clipped county fully inside `sRegion`. -/
def cIn : County := County.mk "Fayette" "21" [Box.mk 1 2 1 2]

/-- Concrete county whose geometry is a pure segment (zero area). -/
def lineCounty : County := County.mk "Line" "21" [Box.mk 0 5 2 2]

/-- Concrete two-part geometry (two separated unit squares). -/
def mGeom : Geometry := [Box.mk 0 1 0 1, Box.mk 2 3 0 1]

/-- Concrete clip operation that fails on the county named Bad. -/
def opTest : County → Except String Geometry :=
  fun c => if c.name == "Bad" then Except.error "boom" else Except.ok c.geom

/-- Concrete county the test operation clips successfully. -/
def goodC : County := County.mk "Good" "21" [Box.mk 0 1 0 1]

/-- Concrete county the test operation fails on. -/
def badC : County := County.mk "Bad" "21" [Box.mk 0 1 0 1]

/-- Concrete stand-in region used to witness the containment divergence. -/
def wRegion : Geometry := [Box.mk (-847) (-843) 379 382]

/-- Concrete district list containing the KY-6 row. -/
def dsTest : List District := [District.mk "21" "06" sRegion]

/-- Emptiness of a list as a Boolean equals being the nil list. -/
theorem isEmpty_true_iff {α : Type} (l : List α) : l.isEmpty = true ↔ l = [] := by
  cases l <;> simp

/-- Non-emptiness of a list as a Boolean equals being distinct from nil. -/
theorem isEmpty_false_iff {α : Type} (l : List α) : l.isEmpty = false ↔ l ≠ [] := by
  cases l <;> simp

/-- The intersection of touching boxes is a proper box. -/
theorem Box.inter_properB (b c : Box) : (b.inter c).properB = b.touches c := rfl

/-- A positive-area box is proper. -/
theorem Box.posArea_properB (b : Box) (h : b.posAreaB = true) : b.properB = true := by
  simp only [Box.posAreaB, Bool.and_eq_true, decide_eq_true_eq] at h
  simp only [Box.properB, Bool.and_eq_true, decide_eq_true_eq]
  exact ⟨le_of_lt h.1, le_of_lt h.2⟩

/-- A proper box has nonnegative area. -/
theorem Box.proper_area_nonneg (b : Box) (h : b.properB = true) : 0 ≤ b.area := by
  simp only [Box.properB, Bool.and_eq_true, decide_eq_true_eq] at h
  exact mul_nonneg (sub_nonneg.mpr h.1) (sub_nonneg.mpr h.2)

/-- For a proper box, positive area is equivalent to both intervals being
nondegenerate. -/
theorem Box.proper_posArea_iff (b : Box) (h : b.properB = true) :
    b.posAreaB = true ↔ 0 < b.area := by
  simp only [Box.properB, Bool.and_eq_true, decide_eq_true_eq] at h
  simp only [Box.posAreaB, Bool.and_eq_true, decide_eq_true_eq]
  constructor
  · intro hp
    exact mul_pos (sub_pos.mpr hp.1) (sub_pos.mpr hp.2)
  · intro hp
    constructor
    · by_contra hx
      have hx2 : b.x2 - b.x1 = 0 := by omega
      rw [Box.area, hx2, zero_mul] at hp
      exact lt_irrefl 0 hp
    · by_contra hy
      have hy2 : b.y2 - b.y1 = 0 := by omega
      rw [Box.area, hy2, mul_zero] at hp
      exact lt_irrefl 0 hp

/-- Sum of a list of nonnegative integers that adds to zero has every
element zero. -/
theorem sum_zero_of_nonneg {l : List ℤ} (h0 : ∀ x ∈ l, 0 ≤ x) (hs : l.sum = 0) :
    ∀ x ∈ l, x = 0 := by
  induction l with
  | nil => simp
  | cons a t ih =>
    simp only [List.sum_cons] at hs
    have ha : 0 ≤ a := h0 a (by simp)
    have ht : 0 ≤ t.sum := List.sum_nonneg (fun x hx => h0 x (by simp [hx]))
    intro x hx
    rcases List.mem_cons.mp hx with rfl | hx2
    · omega
    · exact ih (fun y hy => h0 y (by simp [hy])) (by omega) x hx2

/-- Every box of an intersection result is proper. -/
theorem intersectionG_valid (g h : Geometry) : isValidG (intersectionG g h) = true := by
  simp only [isValidG, List.all_eq_true, intersectionG]
  intro p hp
  simp only [List.mem_flatMap, List.mem_map, List.mem_filter] at hp
  obtain ⟨b, _, c, ⟨_, htouch⟩, rfl⟩ := hp
  rw [Box.inter_properB]
  exact htouch

/-- The intersects predicate holds exactly when the computed intersection
geometry is nonempty, matching the GEOS contract the script relies on at
lines 76 and 83. -/
theorem intersectsG_iff_inter_ne_nil (g h : Geometry) :
    intersectsG g h = true ↔ intersectionG g h ≠ [] := by
  simp only [intersectsG, intersectionG, List.any_eq_true, Ne,
    List.flatMap_eq_nil_iff, List.map_eq_nil_iff, List.filter_eq_nil_iff, not_forall]
  constructor
  · rintro ⟨b, hb, c, hc, ht⟩
    exact ⟨b, hb, by push_neg; exact ⟨c, hc, by simp [ht]⟩⟩
  · rintro ⟨b, hb, hne⟩
    push_neg at hne
    obtain ⟨c, hc, ht⟩ := hne
    exact ⟨b, hb, c, hc, by simpa using ht⟩

/-- Unfolding of the classifier at DISJOINT: exactly the failed intersects
routing test. -/
theorem classify_eq_disjoint_iff (region cand : Geometry) :
    classify region cand = Classification.disjoint ↔ intersectsG cand region = false := by
  unfold classify
  cases h1 : intersectsG cand region <;>
    cases h2 : (clipOut region cand).isEmpty <;> simp [h1, h2]

/-- Unfolding of the classifier at PARTIAL: an intersecting county with a
nonempty outside part. -/
theorem classify_eq_partlyIn_iff (region cand : Geometry) :
    classify region cand = Classification.partlyIn ↔
      (intersectsG cand region = true ∧ (clipOut region cand).isEmpty = false) := by
  unfold classify
  cases h1 : intersectsG cand region <;>
    cases h2 : (clipOut region cand).isEmpty <;> simp [h1, h2]

/-- Repair keeps only positive-area (hence proper) boxes, so its output is
always valid. -/
theorem buffer0_valid (g : Geometry) : isValidG (buffer0 g) = true := by
  simp only [isValidG, buffer0, List.all_eq_true]
  intro b hb
  exact Box.posArea_properB b (List.mem_filter.mp hb).2

/-- Repair of an empty geometry is empty. -/
theorem buffer0_empty (g : Geometry) (h : g.isEmpty = true) :
    (buffer0 g).isEmpty = true := by
  rw [isEmpty_true_iff] at h
  subst h
  rfl

/-- For a valid geometry, repair yields an empty result exactly when the
total area is zero. -/
theorem buffer0_isEmpty_iff (g : Geometry) (hv : isValidG g = true) :
    (buffer0 g).isEmpty = true ↔ totalArea g = 0 := by
  simp only [isValidG, List.all_eq_true] at hv
  rw [isEmpty_true_iff]
  unfold buffer0 totalArea
  constructor
  · intro hfil
    have hall : ∀ b ∈ g, ¬ b.posAreaB = true := List.filter_eq_nil_iff.mp hfil
    have hz : ∀ b ∈ g, b.area = 0 := by
      intro b hb
      have hnn := Box.proper_area_nonneg b (hv b hb)
      have := (Box.proper_posArea_iff b (hv b hb)).not.mp (hall b hb)
      omega
    apply List.sum_eq_zero
    intro x hx
    obtain ⟨b, hb, rfl⟩ := List.mem_map.mp hx
    exact hz b hb
  · intro hsum
    apply List.filter_eq_nil_iff.mpr
    intro b hb hpos
    have hz : ∀ x ∈ g.map Box.area, x = 0 := by
      apply sum_zero_of_nonneg _ hsum
      intro x hx
      obtain ⟨b2, hb2, rfl⟩ := List.mem_map.mp hx
      exact Box.proper_area_nonneg b2 (hv b2 hb2)
    have hb0 : b.area = 0 := hz b.area (List.mem_map_of_mem Box.area hb)
    have := (Box.proper_posArea_iff b (hv b hb)).mp hpos
    omega

/-- Interval overlap lengths are nonnegative. -/
theorem clampLen_nonneg (lo hi u v : ℤ) : 0 ≤ clampLen lo hi u v := le_max_left 0 _

/-- A clamped length with nonpositive raw extent is zero. -/
theorem clampLen_eq_zero (lo hi u v : ℤ) (h : min hi v ≤ max lo u) :
    clampLen lo hi u v = 0 := max_eq_left (by omega)

/-- Splitting a base interval at an interior point splits its overlap length
with any other interval. -/
theorem clampLen_split (lo m hi u v : ℤ) (h1 : lo ≤ m) (h2 : m ≤ hi) :
    clampLen lo m u v + clampLen m hi u v = clampLen lo hi u v := by
  unfold clampLen
  omega

/-- Shrinking the base interval can only shrink the overlap length. -/
theorem clampLen_mono (lo lo2 hi2 hi u v : ℤ) (h1 : lo ≤ lo2) (h2 : hi2 ≤ hi) :
    clampLen lo2 hi2 u v ≤ clampLen lo hi u v := by
  unfold clampLen
  omega

/-- Pairwise overlap areas are nonnegative. -/
theorem clampArea_nonneg (b c : Box) : 0 ≤ clampArea b c :=
  mul_nonneg (clampLen_nonneg _ _ _ _) (clampLen_nonneg _ _ _ _)

/-- Boxes without positive-area overlap have zero overlap area. -/
theorem not_posOverlap_clampArea (b c : Box) (h : b.posOverlap c = false) :
    clampArea b c = 0 := by
  have h2 : ¬ (max b.x1 c.x1 < min b.x2 c.x2 ∧ max b.y1 c.y1 < min b.y2 c.y2) := by
    intro hc
    rw [show b.posOverlap c = true by
      simp [Box.posOverlap, hc.1, hc.2]] at h
    exact Bool.noConfusion h
  unfold clampArea
  rcases not_and_or.mp h2 with hx | hy
  · rw [clampLen_eq_zero b.x1 b.x2 c.x1 c.x2 (by omega), zero_mul]
  · rw [clampLen_eq_zero b.y1 b.y2 c.y1 c.y2 (by omega), mul_zero]

/-- Non-touching boxes have zero overlap area. -/
theorem not_touches_clampArea (b c : Box) (h : b.touches c = false) :
    clampArea b c = 0 := by
  apply not_posOverlap_clampArea
  cases hp : b.posOverlap c
  · rfl
  · simp only [Box.posOverlap, Bool.and_eq_true, decide_eq_true_eq] at hp
    rw [show b.touches c = true by
      simp only [Box.touches, Bool.and_eq_true, decide_eq_true_eq]
      exact ⟨le_of_lt hp.1, le_of_lt hp.2⟩] at h
    exact Bool.noConfusion h

/-- Boxes overlapping with positive area have positive overlap area. -/
theorem posOverlap_clampArea_pos (b c : Box) (h : b.posOverlap c = true) :
    0 < clampArea b c := by
  simp only [Box.posOverlap, Bool.and_eq_true, decide_eq_true_eq] at h
  unfold clampArea clampLen
  apply mul_pos
  · have := h.1
    omega
  · have := h.2
    omega

/-- The area of the intersection of touching boxes is their overlap area. -/
theorem touches_inter_area (b c : Box) (h : b.touches c = true) :
    (b.inter c).area = clampArea b c := by
  simp only [Box.touches, Bool.and_eq_true, decide_eq_true_eq] at h
  show (min b.x2 c.x2 - max b.x1 c.x1) * (min b.y2 c.y2 - max b.y1 c.y1) = _
  unfold clampArea clampLen
  rw [max_eq_right (by omega : (0:ℤ) ≤ min b.x2 c.x2 - max b.x1 c.x1),
    max_eq_right (by omega : (0:ℤ) ≤ min b.y2 c.y2 - max b.y1 c.y1)]

/-- A proper degenerate box has zero overlap area with every box. -/
theorem degenerate_clampArea (p c2 : Box) (hp : p.properB = true)
    (hnp : p.posAreaB = false) : clampArea p c2 = 0 := by
  simp only [Box.properB, Bool.and_eq_true, decide_eq_true_eq] at hp
  have h2 : ¬ (p.x1 < p.x2 ∧ p.y1 < p.y2) := by
    intro hc
    rw [show p.posAreaB = true by
      simp [Box.posAreaB, hc.1, hc.2]] at hnp
    exact Bool.noConfusion hnp
  unfold clampArea
  rcases not_and_or.mp h2 with hx | hy
  · rw [clampLen_eq_zero p.x1 p.x2 c2.x1 c2.x2 (by omega), zero_mul]
  · rw [clampLen_eq_zero p.y1 p.y2 c2.y1 c2.y2 (by omega), mul_zero]

/-- Filtering degenerate boxes away does not change the total area of a
proper list. -/
theorem filter_posArea_totalArea (l : List Box) (hl : ∀ p ∈ l, p.properB = true) :
    totalArea (l.filter Box.posAreaB) = totalArea l := by
  induction l with
  | nil => rfl
  | cons a t ih =>
    have ha := hl a (List.mem_cons_self a t)
    have iht := ih (fun p hp => hl p (List.mem_cons_of_mem a hp))
    by_cases hpos : a.posAreaB = true
    · rw [List.filter_cons_of_pos hpos]
      simp only [totalArea, List.map_cons, List.sum_cons] at iht ⊢
      omega
    · rw [List.filter_cons_of_neg hpos, iht]
      have ha0 : a.area = 0 := by
        have hnn := Box.proper_area_nonneg a ha
        have := (Box.proper_posArea_iff a ha).not.mp hpos
        omega
      simp only [totalArea, List.map_cons, List.sum_cons, ha0, zero_add]

/-- Filtering degenerate boxes away does not change the summed overlap area
of a proper list against a fixed box. -/
theorem filter_posArea_clampSum (l : List Box) (c2 : Box)
    (hl : ∀ p ∈ l, p.properB = true) :
    ((l.filter Box.posAreaB).map (fun p => clampArea p c2)).sum =
      (l.map (fun p => clampArea p c2)).sum := by
  induction l with
  | nil => rfl
  | cons a t ih =>
    have ha := hl a (List.mem_cons_self a t)
    have iht := ih (fun p hp => hl p (List.mem_cons_of_mem a hp))
    by_cases hpos : a.posAreaB = true
    · rw [List.filter_cons_of_pos hpos]
      simp only [List.map_cons, List.sum_cons] at iht ⊢
      omega
    · rw [List.filter_cons_of_neg hpos, iht]
      have ha0 : clampArea a c2 = 0 :=
        degenerate_clampArea a c2 ha (Bool.eq_false_iff.mpr hpos)
      simp only [List.map_cons, List.sum_cons, ha0, zero_add]

/-- Every piece of a guillotine difference of a proper box is proper. -/
theorem boxDiff_proper (b c : Box) (hb : b.properB = true) :
    ∀ p ∈ b.diff c, p.properB = true := by
  simp only [Box.properB, Bool.and_eq_true, decide_eq_true_eq] at hb
  intro p hp
  unfold Box.diff at hp
  by_cases h : b.posOverlap c = true
  · rw [if_pos h] at hp
    simp only [Box.posOverlap, Bool.and_eq_true, decide_eq_true_eq] at h
    have hp2 := List.mem_filter.mp hp
    have hmem := hp2.1
    simp only [List.mem_cons, List.not_mem_nil, or_false] at hmem
    have hx1 : b.x1 ≤ max b.x1 c.x1 := le_max_left _ _
    have hx2 : min b.x2 c.x2 ≤ b.x2 := min_le_left _ _
    have hy1 : b.y1 ≤ max b.y1 c.y1 := le_max_left _ _
    have hy2 : min b.y2 c.y2 ≤ b.y2 := min_le_left _ _
    rcases hmem with rfl | rfl | rfl | rfl <;>
      simp only [Box.properB, Bool.and_eq_true, decide_eq_true_eq] <;>
      constructor <;> omega
  · rw [if_neg h] at hp
    simp only [List.mem_cons, List.not_mem_nil, or_false] at hp
    subst hp
    simp only [Box.properB, Bool.and_eq_true, decide_eq_true_eq]
    exact hb

/-- Area bookkeeping for one guillotine split: the difference pieces carry
exactly the area of the box minus the overlap. -/
theorem boxDiff_area (b c : Box) (hb : b.properB = true) :
    totalArea (b.diff c) = b.area - clampArea b c := by
  unfold Box.diff
  by_cases h : b.posOverlap c = true
  · rw [if_pos h]
    have hb2 := hb
    simp only [Box.properB, Bool.and_eq_true, decide_eq_true_eq] at hb2
    have hov := h
    simp only [Box.posOverlap, Bool.and_eq_true, decide_eq_true_eq] at hov
    have hx1 : b.x1 ≤ max b.x1 c.x1 := le_max_left _ _
    have hx2 : min b.x2 c.x2 ≤ b.x2 := min_le_left _ _
    have hy1 : b.y1 ≤ max b.y1 c.y1 := le_max_left _ _
    have hy2 : min b.y2 c.y2 ≤ b.y2 := min_le_left _ _
    have hprop : ∀ p ∈
        [Box.mk b.x1 (max b.x1 c.x1) b.y1 b.y2,
         Box.mk (min b.x2 c.x2) b.x2 b.y1 b.y2,
         Box.mk (max b.x1 c.x1) (min b.x2 c.x2) b.y1 (max b.y1 c.y1),
         Box.mk (max b.x1 c.x1) (min b.x2 c.x2) (min b.y2 c.y2) b.y2],
        p.properB = true := by
      intro p hp
      simp only [List.mem_cons, List.not_mem_nil, or_false] at hp
      rcases hp with rfl | rfl | rfl | rfl <;>
        simp only [Box.properB, Bool.and_eq_true, decide_eq_true_eq] <;>
        constructor <;> omega
    rw [filter_posArea_totalArea _ hprop]
    have h2 := h
    simp only [Box.posOverlap, Bool.and_eq_true, decide_eq_true_eq] at h2
    have e : clampArea b c =
        (min b.x2 c.x2 - max b.x1 c.x1) * (min b.y2 c.y2 - max b.y1 c.y1) := by
      unfold clampArea clampLen
      rw [max_eq_right (by omega : (0:ℤ) ≤ min b.x2 c.x2 - max b.x1 c.x1),
        max_eq_right (by omega : (0:ℤ) ≤ min b.y2 c.y2 - max b.y1 c.y1)]
    rw [e]
    simp only [totalArea, List.map_cons, List.map_nil, List.sum_cons, List.sum_nil,
      Box.area]
    ring
  · rw [if_neg h]
    have hz : clampArea b c = 0 :=
      not_posOverlap_clampArea b c (by cases hp : b.posOverlap c; rfl; exact absurd hp h)
    simp only [totalArea, List.map_cons, List.map_nil, List.sum_cons, List.sum_nil, hz]
    omega

/-- Overlap bookkeeping for one guillotine split against a third box that
does not positively overlap the subtracted box: the pieces together overlap
the third box exactly as much as the original did. -/
theorem boxDiff_clampSum (b c c2 : Box) (hb : b.properB = true)
    (hcc2 : c.posOverlap c2 = false) :
    ((b.diff c).map (fun p => clampArea p c2)).sum = clampArea b c2 := by
  unfold Box.diff
  by_cases h : b.posOverlap c = true
  · rw [if_pos h]
    have hb2 := hb
    simp only [Box.properB, Bool.and_eq_true, decide_eq_true_eq] at hb2
    have h2 := h
    simp only [Box.posOverlap, Bool.and_eq_true, decide_eq_true_eq] at h2
    have hx1 : b.x1 ≤ max b.x1 c.x1 := le_max_left _ _
    have hx2 : min b.x2 c.x2 ≤ b.x2 := min_le_left _ _
    have hy1 : b.y1 ≤ max b.y1 c.y1 := le_max_left _ _
    have hy2 : min b.y2 c.y2 ≤ b.y2 := min_le_left _ _
    have hprop : ∀ p ∈
        [Box.mk b.x1 (max b.x1 c.x1) b.y1 b.y2,
         Box.mk (min b.x2 c.x2) b.x2 b.y1 b.y2,
         Box.mk (max b.x1 c.x1) (min b.x2 c.x2) b.y1 (max b.y1 c.y1),
         Box.mk (max b.x1 c.x1) (min b.x2 c.x2) (min b.y2 c.y2) b.y2],
        p.properB = true := by
      intro p hp
      simp only [List.mem_cons, List.not_mem_nil, or_false] at hp
      rcases hp with rfl | rfl | rfl | rfl <;>
        simp only [Box.properB, Bool.and_eq_true, decide_eq_true_eq] <;>
        constructor <;> omega
    rw [filter_posArea_clampSum _ _ hprop]
    simp only [List.map_cons, List.map_nil, List.sum_cons, List.sum_nil, add_zero]
    have hXsplit1 : clampLen (max b.x1 c.x1) (min b.x2 c.x2) c2.x1 c2.x2 +
        clampLen (min b.x2 c.x2) b.x2 c2.x1 c2.x2 =
        clampLen (max b.x1 c.x1) b.x2 c2.x1 c2.x2 :=
      clampLen_split _ _ _ _ _ (by omega) (by omega)
    have hXsplit2 : clampLen b.x1 (max b.x1 c.x1) c2.x1 c2.x2 +
        clampLen (max b.x1 c.x1) b.x2 c2.x1 c2.x2 =
        clampLen b.x1 b.x2 c2.x1 c2.x2 :=
      clampLen_split _ _ _ _ _ (by omega) (by omega)
    have hYsplit1 : clampLen (max b.y1 c.y1) (min b.y2 c.y2) c2.y1 c2.y2 +
        clampLen (min b.y2 c.y2) b.y2 c2.y1 c2.y2 =
        clampLen (max b.y1 c.y1) b.y2 c2.y1 c2.y2 :=
      clampLen_split _ _ _ _ _ (by omega) (by omega)
    have hYsplit2 : clampLen b.y1 (max b.y1 c.y1) c2.y1 c2.y2 +
        clampLen (max b.y1 c.y1) b.y2 c2.y1 c2.y2 =
        clampLen b.y1 b.y2 c2.y1 c2.y2 :=
      clampLen_split _ _ _ _ _ (by omega) (by omega)
    have hcentral : clampLen (max b.x1 c.x1) (min b.x2 c.x2) c2.x1 c2.x2 *
        clampLen (max b.y1 c.y1) (min b.y2 c.y2) c2.y1 c2.y2 = 0 := by
      have hmono1 : clampLen (max b.x1 c.x1) (min b.x2 c.x2) c2.x1 c2.x2 ≤
          clampLen c.x1 c.x2 c2.x1 c2.x2 :=
        clampLen_mono _ _ _ _ _ _ (le_max_right _ _) (min_le_right _ _)
      have hmono2 : clampLen (max b.y1 c.y1) (min b.y2 c.y2) c2.y1 c2.y2 ≤
          clampLen c.y1 c.y2 c2.y1 c2.y2 :=
        clampLen_mono _ _ _ _ _ _ (le_max_right _ _) (min_le_right _ _)
      have hzc : clampArea c c2 = 0 := not_posOverlap_clampArea c c2 hcc2
      unfold clampArea at hzc
      have hn1 := clampLen_nonneg (max b.x1 c.x1) (min b.x2 c.x2) c2.x1 c2.x2
      have hn2 := clampLen_nonneg (max b.y1 c.y1) (min b.y2 c.y2) c2.y1 c2.y2
      have hn3 := clampLen_nonneg c.x1 c.x2 c2.x1 c2.x2
      have hn4 := clampLen_nonneg c.y1 c.y2 c2.y1 c2.y2
      have hle : clampLen (max b.x1 c.x1) (min b.x2 c.x2) c2.x1 c2.x2 *
          clampLen (max b.y1 c.y1) (min b.y2 c.y2) c2.y1 c2.y2 ≤
          clampLen c.x1 c.x2 c2.x1 c2.x2 * clampLen c.y1 c.y2 c2.y1 c2.y2 :=
        mul_le_mul hmono1 hmono2 hn2 hn3
      have hge : 0 ≤ clampLen (max b.x1 c.x1) (min b.x2 c.x2) c2.x1 c2.x2 *
          clampLen (max b.y1 c.y1) (min b.y2 c.y2) c2.y1 c2.y2 :=
        mul_nonneg hn1 hn2
      linarith [hle, hge, hzc]
    simp only [clampArea]
    linear_combination clampLen b.y1 b.y2 c2.y1 c2.y2 * hXsplit1 +
      clampLen b.y1 b.y2 c2.y1 c2.y2 * hXsplit2 +
      clampLen (max b.x1 c.x1) (min b.x2 c.x2) c2.x1 c2.x2 * hYsplit1 +
      clampLen (max b.x1 c.x1) (min b.x2 c.x2) c2.x1 c2.x2 * hYsplit2 - hcentral
  · rw [if_neg h]
    simp

/-- Summing a map over two functions splits into two sums. -/
theorem sum_map_add {β : Type} (l : List β) (f g2 : β → ℤ) :
    (l.map (fun x => f x + g2 x)).sum = (l.map f).sum + (l.map g2).sum := by
  induction l with
  | nil => rfl
  | cons a t ih =>
    simp only [List.map_cons, List.sum_cons, ih]
    ring

/-- Exchanging the order of a double list sum. -/
theorem sum_swap_list {α β : Type} (l1 : List α) (l2 : List β) (f : α → β → ℤ) :
    (l1.map (fun a => (l2.map (fun b => f a b)).sum)).sum =
      (l2.map (fun b => (l1.map (fun a => f a b)).sum)).sum := by
  induction l1 with
  | nil =>
    simp only [List.map_nil, List.sum_nil]
    rw [eq_comm]
    apply List.sum_eq_zero
    intro x hx
    obtain ⟨b, _, rfl⟩ := List.mem_map.mp hx
    rfl
  | cons a t ih =>
    simp only [List.map_cons, List.sum_cons, ih, ← sum_map_add]

/-- Total area distributes over flat maps. -/
theorem flatMap_totalArea (l : List Box) (f : Box → List Box) :
    totalArea (l.flatMap f) = (l.map (fun b => totalArea (f b))).sum := by
  induction l with
  | nil => rfl
  | cons a t ih =>
    simp only [List.flatMap_cons, totalArea, List.map_append, List.sum_append,
      List.map_cons, List.sum_cons] at ih ⊢
    omega

/-- One subtraction pass preserves properness. -/
theorem diffStep_proper (l : List Box) (c : Box) (hl : ∀ b ∈ l, b.properB = true) :
    ∀ p ∈ l.flatMap (fun b => b.diff c), p.properB = true := by
  intro p hp
  obtain ⟨b, hb, hpb⟩ := List.mem_flatMap.mp hp
  exact boxDiff_proper b c (hl b hb) p hpb

/-- Area bookkeeping for one subtraction pass over a proper list. -/
theorem diffStep_area (l : List Box) (c : Box) (hl : ∀ b ∈ l, b.properB = true) :
    totalArea (l.flatMap (fun b => b.diff c)) =
      totalArea l - (l.map (fun b => clampArea b c)).sum := by
  induction l with
  | nil => rfl
  | cons a t ih =>
    have ha := hl a (List.mem_cons_self a t)
    have iht := ih (fun b hb => hl b (List.mem_cons_of_mem a hb))
    have hba := boxDiff_area a c ha
    simp only [List.flatMap_cons, totalArea, List.map_append, List.sum_append,
      List.map_cons, List.sum_cons] at iht hba ⊢
    omega

/-- Overlap bookkeeping for one subtraction pass: against any box that does
not positively overlap the subtracted one, overlap area is preserved. -/
theorem diffStep_clampSum (l : List Box) (c c2 : Box)
    (hl : ∀ b ∈ l, b.properB = true) (hcc2 : c.posOverlap c2 = false) :
    ((l.flatMap (fun b => b.diff c)).map (fun p => clampArea p c2)).sum =
      (l.map (fun b => clampArea b c2)).sum := by
  induction l with
  | nil => rfl
  | cons a t ih =>
    have ha := hl a (List.mem_cons_self a t)
    have iht := ih (fun b hb => hl b (List.mem_cons_of_mem a hb))
    simp only [List.flatMap_cons, List.map_append, List.sum_append, List.map_cons,
      List.sum_cons, iht, boxDiff_clampSum a c c2 ha hcc2]

/-- Unpacking pairwise disjointness at a cons cell. -/
theorem noOverlap_cons (c : Box) (t : Geometry) (h : noOverlapG (c :: t) = true) :
    (∀ c2 ∈ t, c.posOverlap c2 = false) ∧ noOverlapG t = true := by
  simp only [noOverlapG, Bool.and_eq_true, List.all_eq_true] at h
  refine ⟨fun c2 hc2 => ?_, h.2⟩
  have := h.1 c2 hc2
  simpa using this

/-- Area bookkeeping for the whole difference fold: subtracting a pairwise
interior-disjoint region removes exactly the pairwise overlap area. -/
theorem foldDiff_area (h : Geometry) : ∀ l : List Box,
    (∀ b ∈ l, b.properB = true) → noOverlapG h = true →
    totalArea (h.foldl (fun acc c => acc.flatMap (fun b => b.diff c)) l) =
      totalArea l - pairSum l h := by
  induction h with
  | nil =>
    intro l hl _
    simp only [List.foldl_nil, pairSum, List.map_nil, List.sum_nil, sub_zero]
  | cons c t ih =>
    intro l hl hno
    obtain ⟨hhead, htail⟩ := noOverlap_cons c t hno
    have hstep : (c :: t).foldl (fun acc c3 => acc.flatMap (fun b => b.diff c3)) l =
        t.foldl (fun acc c3 => acc.flatMap (fun b => b.diff c3))
          (l.flatMap (fun b => b.diff c)) := rfl
    rw [hstep, ih _ (diffStep_proper l c hl) htail, diffStep_area l c hl]
    have e1 : pairSum (l.flatMap (fun b => b.diff c)) t = pairSum l t := by
      unfold pairSum
      apply congrArg List.sum
      apply List.map_congr_left
      intro c2 hc2
      exact diffStep_clampSum l c c2 hl (hhead c2 hc2)
    rw [e1]
    simp only [pairSum, List.map_cons, List.sum_cons]
    omega

/-- Row bookkeeping for the intersection: one box of the first geometry
against the whole second geometry. -/
theorem interRow_area (b : Box) (h : Geometry) :
    totalArea ((h.filter (fun c => b.touches c)).map (fun c => b.inter c)) =
      (h.map (fun c => clampArea b c)).sum := by
  induction h with
  | nil => rfl
  | cons c t ih =>
    by_cases ht : b.touches c = true
    · rw [List.filter_cons_of_pos ht]
      simp only [totalArea, List.map_cons, List.sum_cons] at ih ⊢
      rw [touches_inter_area b c ht, ih]
    · rw [List.filter_cons_of_neg ht]
      have h0 : clampArea b c = 0 :=
        not_touches_clampArea b c (Bool.eq_false_iff.mpr ht)
      simp only [List.map_cons, List.sum_cons, h0, zero_add]
      exact ih

/-- The computed intersection of two geometries carries exactly the pairwise
overlap area. -/
theorem intersectionG_area (g h : Geometry) :
    totalArea (intersectionG g h) = pairSum g h := by
  unfold intersectionG pairSum
  rw [flatMap_totalArea]
  rw [List.map_congr_left (fun b _ => interRow_area b h)]
  exact sum_swap_list g h (fun b c => clampArea b c)

/-- The headline conservation law of the clipper: for a proper candidate and
a pairwise interior-disjoint region, the clipped-in and clipped-out areas
always sum exactly to the candidate's area. -/
theorem clip_area_split (region cand : Geometry) (hc : isValidG cand = true)
    (hr : noOverlapG region = true) :
    totalArea (clipIn region cand) + totalArea (clipOut region cand) =
      totalArea cand := by
  unfold clipIn clipOut differenceG
  rw [intersectionG_area]
  rw [foldDiff_area region cand
    (by simpa only [isValidG, List.all_eq_true] using hc) hr]
  omega

/-- A zero-area computed intersection forces every pair of boxes of the two
geometries to be free of positive overlap. -/
theorem zero_inter_no_posOverlap (region cand : Geometry)
    (hz : totalArea (clipIn region cand) = 0) :
    ∀ b ∈ cand, ∀ c ∈ region, b.posOverlap c = false := by
  unfold clipIn at hz
  rw [intersectionG_area] at hz
  intro b hb c hc
  cases hov : b.posOverlap c
  · rfl
  · exfalso
    have hpos := posOverlap_clampArea_pos b c hov
    unfold pairSum at hz
    have houter : ∀ x ∈ region.map
        (fun c2 => (cand.map (fun b2 => clampArea b2 c2)).sum), x = 0 := by
      apply sum_zero_of_nonneg _ hz
      intro x hx
      obtain ⟨c2, _, rfl⟩ := List.mem_map.mp hx
      apply List.sum_nonneg
      intro y hy
      obtain ⟨b2, _, rfl⟩ := List.mem_map.mp hy
      exact clampArea_nonneg b2 c2
    have hrow : (cand.map (fun b2 => clampArea b2 c)).sum = 0 :=
      houter _ (List.mem_map_of_mem _ hc)
    have hcell : clampArea b c = 0 := by
      apply sum_zero_of_nonneg _ hrow _ (List.mem_map_of_mem _ hb)
      intro y hy
      obtain ⟨b2, _, rfl⟩ := List.mem_map.mp hy
      exact clampArea_nonneg b2 c
    omega

/-- Subtracting a geometry that never positively overlaps the subject leaves
the subject unchanged. -/
theorem foldDiff_id (h : Geometry) : ∀ l : List Box,
    (∀ b ∈ l, ∀ c ∈ h, b.posOverlap c = false) →
    h.foldl (fun acc c => acc.flatMap (fun b => b.diff c)) l = l := by
  induction h with
  | nil => intro l _; rfl
  | cons c t ih =>
    intro l hl
    have e1 : l.flatMap (fun b => b.diff c) = l := by
      induction l with
      | nil => rfl
      | cons b l2 ihl =>
        have hbc : b.posOverlap c = false := hl b (List.mem_cons_self b l2)
          c (List.mem_cons_self c t)
        simp only [List.flatMap_cons]
        rw [show b.diff c = [b] by unfold Box.diff; rw [if_neg (by simp [hbc])]]
        rw [ihl (fun b2 hb2 c2 hc2 => hl b2 (List.mem_cons_of_mem b hb2) c2 hc2)]
        rfl
    have hstep : (c :: t).foldl (fun acc c3 => acc.flatMap (fun b => b.diff c3)) l =
        t.foldl (fun acc c3 => acc.flatMap (fun b => b.diff c3))
          (l.flatMap (fun b => b.diff c)) := rfl
    rw [hstep, e1]
    exact ih l (fun b hb c2 hc2 => hl b hb c2 (List.mem_cons_of_mem c hc2))

/-- The representative point of a geometry with a positive-area part lies
inside the geometry. -/
theorem reprPointA_mem (g : Geometry) (hne : g.filter Box.posAreaB ≠ []) :
    containsA g (reprPointA g) = true := by
  cases hfil : g.filter Box.posAreaB with
  | nil => exact absurd hfil hne
  | cons b rest =>
    have hb : b ∈ g.filter Box.posAreaB := by
      rw [hfil]
      exact List.mem_cons_self b rest
    have hmem := List.mem_filter.mp hb
    have hpos := hmem.2
    simp only [Box.posAreaB, Bool.and_eq_true, decide_eq_true_eq] at hpos
    unfold reprPointA
    rw [hfil]
    apply List.any_eq_true.mpr
    refine ⟨b, hmem.1, ?_⟩
    simp only [Box.memA, Bool.and_eq_true, decide_eq_true_eq]
    omega

/-- A geometry typed MultiPolygon has a positive-area part. -/
theorem geomType_multi_filter_ne (g : Geometry)
    (h : geomType g = GeomType.MultiPolygon) : g.filter Box.posAreaB ≠ [] := by
  intro hnil
  unfold geomType at h
  rw [hnil] at h
  simp at h

/-- The clip loop accounts for every county exactly once: kept results and
warnings together partition the input. -/
theorem clipCounties_length (op : County → Except String Geometry) (cs : List County) :
    (clipCounties op cs).1.length + (clipCounties op cs).2.length = cs.length := by
  induction cs with
  | nil => rfl
  | cons c rest ih =>
    cases hop : op c with
    | ok g =>
      by_cases hkeep : (!g.isEmpty && isValidG g) = true
      · simp only [clipCounties, hop]
        rw [if_pos hkeep]
        simp only [List.length_cons]
        omega
      · simp only [clipCounties, hop]
        rw [if_neg hkeep]
        simp only [List.length_cons]
        omega
    | error e =>
      simp only [clipCounties, hop]
      simp only [List.length_cons]
      omega

/-- A county whose clip succeeds with a kept geometry appears in the loop's
results, regardless of how the operation behaves on the other counties. -/
theorem clipCounties_ok_mem (op : County → Except String Geometry) (cs : List County)
    (c : County) (g : Geometry) (hc : c ∈ cs) (hok : op c = Except.ok g)
    (hkeep : (!g.isEmpty && isValidG g) = true) :
    { c with geom := g } ∈ (clipCounties op cs).1 := by
  induction cs with
  | nil => cases hc
  | cons a rest ih =>
    rcases List.mem_cons.mp hc with rfl | hc2
    · simp only [clipCounties, hok]
      rw [if_pos hkeep]
      exact List.mem_cons_self _ _
    · have htail := ih hc2
      cases hop : op a with
      | ok g2 =>
        by_cases hk2 : (!g2.isEmpty && isValidG g2) = true
        · simp only [clipCounties, hop]
          rw [if_pos hk2]
          exact List.mem_cons_of_mem _ htail
        · simp only [clipCounties, hop]
          rw [if_neg hk2]
          exact htail
      | error e =>
        simp only [clipCounties, hop]
        exact htail

/-- A county whose clip raises appears among the collected warnings. -/
theorem clipCounties_err_mem (op : County → Except String Geometry) (cs : List County)
    (c : County) (e : String) (hc : c ∈ cs) (herr : op c = Except.error e) :
    ({ county := c.name, reason := e } : Warning) ∈ (clipCounties op cs).2 := by
  induction cs with
  | nil => cases hc
  | cons a rest ih =>
    rcases List.mem_cons.mp hc with rfl | hc2
    · simp only [clipCounties, herr]
      exact List.mem_cons_self _ _
    · have htail := ih hc2
      cases hop : op a with
      | ok g2 =>
        by_cases hk2 : (!g2.isEmpty && isValidG g2) = true
        · simp only [clipCounties, hop]
          rw [if_pos hk2]
          exact htail
        · simp only [clipCounties, hop]
          rw [if_neg hk2]
          exact List.mem_cons_of_mem _ htail
      | error e2 =>
        simp only [clipCounties, hop]
        exact List.mem_cons_of_mem _ htail

/-- Characterization of the first grey block: full geometries of the
non-intersecting counties, tagged excluded. -/
theorem outsideLayers_mem (region : Geometry) (ky : List County) :
    ∀ e ∈ outsideLayers region ky, ∃ c, c ∈ ky ∧ intersectsG c.geom region = false ∧
      e = MapElem.layer Tag.excluded c.geom (some c.name) := by
  intro e he
  obtain ⟨c, hc, rfl⟩ := List.mem_map.mp he
  have hm := List.mem_filter.mp hc
  exact ⟨c, hm.1, by simpa using hm.2, rfl⟩

/-- Characterization of the second grey block: nonempty outside parts of the
intersecting counties, tagged excluded. -/
theorem outsidePartLayers_mem (region : Geometry) (ky : List County) :
    ∀ e ∈ outsidePartLayers region ky, ∃ c, c ∈ ky ∧ intersectsG c.geom region = true ∧
      (clipOut region c.geom).isEmpty = false ∧
      e = MapElem.layer Tag.excluded (clipOut region c.geom) (some c.name) := by
  intro e he
  obtain ⟨c, hc, hsome⟩ := List.mem_filterMap.mp he
  have hm := List.mem_filter.mp hc
  by_cases hemp : (clipOut region c.geom).isEmpty = true
  · rw [if_pos hemp] at hsome
    cases hsome
  · rw [if_neg hemp] at hsome
    exact ⟨c, hm.1, hm.2, Bool.eq_false_iff.mpr hemp,
      (Option.some.inj hsome).symm⟩

/-- Characterization of the included block: for each nonempty clipped
county, its layer tagged included with its name, and its marker exactly when
an anchor was resolved. -/
theorem includedElems_mem (clipped : List County) :
    ∀ e ∈ includedElems clipped, ∃ c, c ∈ clipped ∧ c.geom.isEmpty = false ∧
      (e = MapElem.layer Tag.included c.geom (some c.name) ∨
       ∃ a, anchorOf c.geom = some a ∧ e = MapElem.marker a c.name) := by
  intro e he
  obtain ⟨c, hc, hce⟩ := List.mem_flatMap.mp he
  unfold includedEntry at hce
  by_cases hemp : c.geom.isEmpty = true
  · rw [if_pos hemp] at hce
    cases hce
  · rw [if_neg hemp] at hce
    refine ⟨c, hc, Bool.eq_false_iff.mpr hemp, ?_⟩
    rcases List.mem_cons.mp hce with rfl | hmark
    · left
      rfl
    · right
      cases han : anchorOf c.geom with
      | none =>
        rw [han] at hmark
        cases hmark
      | some a =>
        rw [han] at hmark
        simp only [List.mem_cons, List.not_mem_nil, or_false] at hmark
        exact ⟨a, rfl, hmark⟩

/-- Every element of the two grey blocks is tagged excluded. -/
theorem outside_block_tag (region : Geometry) (ky : List County) :
    ∀ e ∈ outsideLayers region ky ++ outsidePartLayers region ky,
      elemTag e = some Tag.excluded := by
  intro e he
  rcases List.mem_append.mp he with h1 | h2
  · obtain ⟨c, _, _, rfl⟩ := outsideLayers_mem region ky e h1
    rfl
  · obtain ⟨c, _, _, _, rfl⟩ := outsidePartLayers_mem region ky e h2
    rfl

/-- Every element of the included block is an included layer or a marker. -/
theorem included_block_tag (clipped : List County) :
    ∀ e ∈ includedElems clipped,
      elemTag e = some Tag.included ∨ elemTag e = none := by
  intro e he
  obtain ⟨c, _, _, hcase⟩ := includedElems_mem clipped e he
  rcases hcase with rfl | ⟨a, _, rfl⟩
  · left
    rfl
  · right
    rfl

/-- Positional analysis of the composed layer list: excluded layers live
strictly before the boundary layer's position, which lives strictly before
every included layer. -/
theorem compose_zone (region : Geometry) (ky clipped : List County) (i : Nat)
    (ei : MapElem) (h : (composeMap region ky clipped)[i]? = some ei) :
    (elemTag ei = some Tag.excluded →
      i < (outsideLayers region ky ++ outsidePartLayers region ky).length) ∧
    (elemTag ei = some Tag.boundary →
      i = (outsideLayers region ky ++ outsidePartLayers region ky).length) ∧
    (elemTag ei = some Tag.included →
      (outsideLayers region ky ++ outsidePartLayers region ky).length < i) := by
  have hform : composeMap region ky clipped =
      (outsideLayers region ky ++ outsidePartLayers region ky) ++
        (boundaryLayer region :: includedElems clipped) := by
    unfold composeMap
    simp [List.append_assoc]
  rw [hform] at h
  rcases Nat.lt_or_ge i (outsideLayers region ky ++ outsidePartLayers region ky).length
    with hlt | hge
  · rw [List.getElem?_append_left hlt] at h
    have htag := outside_block_tag region ky ei (List.getElem?_mem h)
    refine ⟨fun _ => hlt, fun hb => ?_, fun hi => ?_⟩
    · rw [htag] at hb
      cases hb
    · rw [htag] at hi
      cases hi
  · rw [List.getElem?_append_right hge] at h
    rcases hisub : i - (outsideLayers region ky ++ outsidePartLayers region ky).length
      with _ | k
    · rw [hisub, List.getElem?_cons_zero] at h
      have hei : ei = boundaryLayer region := (Option.some.inj h).symm
      subst hei
      refine ⟨fun hx => ?_, fun _ => by omega, fun hi => ?_⟩
      · cases hx
      · cases hi
    · rw [hisub, List.getElem?_cons_succ] at h
      have htag := included_block_tag clipped ei (List.getElem?_mem h)
      refine ⟨fun hx => ?_, fun hb => ?_, fun _ => by omega⟩
      · rcases htag with ht | ht <;> rw [ht] at hx <;> cases hx
      · rcases htag with ht | ht <;> rw [ht] at hb <;> cases hb

/-- Claim C1.  The address checker's exposed answer is exactly membership in
the hardcoded axis-aligned rectangle (37.4..38.6 by -85.2..-83.8, here in
tenths of a degree); consequently it diverges from the exact point-in-polygon
test against any region geometry that excludes a point of that rectangle, so
the bounding-rectangle approximation is itself the final exposed answer,
never the polygon test the claim requires. -/
theorem checkIfInDistrict_is_rectangle (region : Geometry) (q : Pt)
    (h1 : checkIfInDistrict q.y q.x = true) (h2 : containsG region q = false) :
    (∀ lat lon : ℤ, checkIfInDistrict lat lon =
      (decide (374 ≤ lat) && decide (lat ≤ 386) &&
       decide (-852 ≤ lon) && decide (lon ≤ -838))) ∧
    checkIfInDistrict q.y q.x ≠ containsG region q := by
  refine ⟨fun lat lon => rfl, ?_⟩
  rw [h1, h2]
  exact fun hcontra => Bool.noConfusion hcontra

/-- Witness for C1 at the concrete point (37.5, -85.1), inside the hardcoded
rectangle but outside the concrete stand-in region. -/
theorem checkIfInDistrict_is_rectangle_witness :
    checkIfInDistrict 375 (-851) = true ∧
    checkIfInDistrict 375 (-851) ≠ containsG wRegion (Pt.mk (-851) 375) := by
  have h := checkIfInDistrict_is_rectangle wRegion (Pt.mk (-851) 375)
    (by decide) (by decide)
  exact ⟨by decide, h.2⟩

/-- Counterexample to claim C2 as stated: a connected non-convex clipped-in
geometry (the U shape) is nonempty, its resolved anchor is the centroid
(3/2, 19/14), and that anchor lies outside the geometry. -/
theorem centroid_anchor_lands_outside :
    (buffer0 (clipIn uRegion uCand)).isEmpty = false ∧
    anchorOf (buffer0 (clipIn uRegion uCand)) = some (Anchor.mk 21 19 14) ∧
    containsA (buffer0 (clipIn uRegion uCand)) (Anchor.mk 21 19 14) = false := by
  decide

/-- Claim C2 (amended).  The anchor dispatch follows the geometry kind: a
multi-part clip result gets the representative point, which does lie inside
the geometry; a single-part result gets the centroid (with no containment
guarantee); any other kind gets no anchor. -/
theorem anchor_policy_by_geom_type (g : Geometry) :
    (geomType g = GeomType.MultiPolygon →
      anchorOf g = some (reprPointA g) ∧ containsA g (reprPointA g) = true) ∧
    (geomType g = GeomType.Polygon → anchorOf g = some (centroidA g)) ∧
    (geomType g = GeomType.Other → anchorOf g = none) := by
  refine ⟨fun h => ⟨?_, ?_⟩, fun h => ?_, fun h => ?_⟩
  · unfold anchorOf
    rw [h]
  · exact reprPointA_mem g (geomType_multi_filter_ne g h)
  · unfold anchorOf
    rw [h]
  · unfold anchorOf
    rw [h]

/-- Witness for C2 (amended) at a concrete two-part geometry. -/
theorem anchor_policy_by_geom_type_witness :
    anchorOf mGeom = some (reprPointA mGeom) ∧
    containsA mGeom (reprPointA mGeom) = true :=
  (anchor_policy_by_geom_type mGeom).1 (by decide)

/-- Claim C3.  The classifier answers DISJOINT exactly when the clipped-in
geometry (the raw set intersection of line 82, whose emptiness the script
itself tests at line 83) is empty: the routing intersects test and the
emptiness of the computed intersection agree on every input. -/
theorem disjoint_iff_clipIn_empty (region cand : Geometry) :
    classify region cand = Classification.disjoint ↔
      (clipIn region cand).isEmpty = true := by
  rw [classify_eq_disjoint_iff, isEmpty_true_iff]
  unfold clipIn
  have hiff := intersectsG_iff_inter_ne_nil cand region
  constructor
  · intro h
    by_contra hne
    rw [hiff.mpr hne] at h
    cases h
  · intro h
    cases hI : intersectsG cand region
    · rfl
    · exact absurd h (hiff.mp hI)

/-- Counterexample to claim C4 as stated: a candidate sharing exactly one
edge with the region (zero-area, nonempty intersection) passes the
intersects test and is classified PARTIAL, not DISJOINT. -/
theorem boundary_touch_not_disjoint :
    intersectsG tCand tRegion = true ∧
    (clipIn tRegion tCand).isEmpty = false ∧
    totalArea (clipIn tRegion tCand) = 0 ∧
    classify tRegion tCand = Classification.partlyIn ∧
    classify tRegion tCand ≠ Classification.disjoint := by
  decide

/-- Claim C4 (amended).  A candidate that touches the region with a
zero-area intersection is classified PARTIAL by the code (the intersects
routing test is true for boundary contact), and its repaired clipped-in
geometry is empty, so it is dropped from the included layer. -/
theorem boundary_touch_classified_partly (region cand : Geometry)
    (hne : cand ≠ []) (htouch : intersectsG cand region = true)
    (hzero : totalArea (clipIn region cand) = 0) :
    classify region cand = Classification.partlyIn ∧
    (buffer0 (clipIn region cand)).isEmpty = true := by
  have hnop := zero_inter_no_posOverlap region cand hzero
  have hid : clipOut region cand = cand := by
    unfold clipOut differenceG
    exact foldDiff_id region cand hnop
  constructor
  · rw [classify_eq_partlyIn_iff]
    refine ⟨htouch, ?_⟩
    rw [hid, isEmpty_false_iff]
    exact hne
  · unfold clipIn at hzero ⊢
    rw [buffer0_isEmpty_iff _ (intersectionG_valid cand region)]
    exact hzero

/-- Witness for C4 (amended) at the concrete edge-touching pair. -/
theorem boundary_touch_classified_partly_witness :
    classify tRegion tCand = Classification.partlyIn ∧
    (buffer0 (clipIn tRegion tCand)).isEmpty = true :=
  boundary_touch_classified_partly tRegion tCand (by decide) (by decide) (by decide)

/-- Claim C5.  For a proper candidate and a pairwise interior-disjoint
region, a PARTIAL classification guarantees a nonempty clipped-in geometry,
a nonempty clipped-out geometry, and that their areas sum exactly (in exact
integer arithmetic, hence within any floating point tolerance) to the
candidate's area. -/
theorem partly_clip_areas_sum (region cand : Geometry)
    (hc : isValidG cand = true) (hr : noOverlapG region = true)
    (hp : classify region cand = Classification.partlyIn) :
    (clipIn region cand).isEmpty = false ∧
    (clipOut region cand).isEmpty = false ∧
    totalArea (clipIn region cand) + totalArea (clipOut region cand) =
      totalArea cand := by
  obtain ⟨hI, hO⟩ := (classify_eq_partlyIn_iff region cand).mp hp
  refine ⟨?_, hO, clip_area_split region cand hc hr⟩
  rw [isEmpty_false_iff]
  unfold clipIn
  exact (intersectsG_iff_inter_ne_nil cand region).mp hI

/-- Witness for C5 at the spec's scenario: region a 10 by 10 square and a
candidate square half inside, with areas 50 plus 50 equal to 100. -/
theorem partly_clip_areas_sum_witness :
    (clipIn sRegion sCand).isEmpty = false ∧
    (clipOut sRegion sCand).isEmpty = false ∧
    totalArea (clipIn sRegion sCand) + totalArea (clipOut sRegion sCand) =
      totalArea sCand :=
  partly_clip_areas_sum sRegion sCand (by decide) (by decide) (by decide)

/-- Claim C6, evaluated at the failing input.  With the KY-6 district row
present, a clip failure on the single intersecting candidate leaves the clip
loop with no survivor, so the run does not produce a map: it aborts at the
repair step (the line-97 geometry-column access on the column-less frame).
The failing candidate is still reported (the loop's warning), and the very
same input with a succeeding clip operation completes to a map — so one
candidate's clip failure alone turns a successful run into an abort even
though the target region exists, contradicting the claim that such a
failure never aborts the run and that only a missing target region is
fatal. -/
theorem clip_failure_aborts_run :
    findDistrict dsTest = some (District.mk "21" "06" sRegion) ∧
    create_ky6_map (fun _ _ => Except.error "boom") dsTest [goodC] =
      RunResult.crashed "KeyError: geometry" ∧
    (clipCounties (fun _ => (Except.error "boom" : Except String Geometry))
      [goodC]).2 = [Warning.mk "Good" "boom"] ∧
    (create_ky6_map (fun g h => Except.ok (intersectionG g h)) dsTest
      [goodC]).isCrash = false := by
  decide

/-- Claim C7.  The repair primitive is a total function on geometries (it
returns a geometry on every input, by construction): its output is always
valid, an empty input yields an empty output, and on valid input the output
is empty exactly when the input carried no area — a zero-area or otherwise
unusable input degenerates to empty instead of failing. -/
theorem repair_never_fails (g : Geometry) :
    isValidG (buffer0 g) = true ∧
    (g.isEmpty = true → (buffer0 g).isEmpty = true) ∧
    (isValidG g = true → ((buffer0 g).isEmpty = true ↔ totalArea g = 0)) :=
  ⟨buffer0_valid g, buffer0_empty g, buffer0_isEmpty_iff g⟩

/-- Witness for C7 at a degenerate segment geometry and the empty
geometry. -/
theorem repair_never_fails_witness :
    isValidG (buffer0 lineCounty.geom) = true ∧
    ((buffer0 lineCounty.geom).isEmpty = true ↔ totalArea lineCounty.geom = 0) ∧
    (buffer0 ([] : Geometry)).isEmpty = true :=
  ⟨(repair_never_fails lineCounty.geom).1,
    (repair_never_fails lineCounty.geom).2.2 (by decide),
    (repair_never_fails []).2.1 rfl⟩

/-- Claim C8.  The composed layer list has the fixed draw order: the first
grey block is exactly the full geometries of non-intersecting counties
tagged excluded, the second grey block the nonempty outside parts of
intersecting counties tagged excluded, the boundary layer is present, the
included block carries each nonempty clipped county's geometry tagged
included with its name plus its anchor marker when resolved, and
positionally every excluded layer precedes the boundary layer, which
precedes every included layer. -/
theorem compose_draw_order (region : Geometry) (ky clipped : List County) :
    (∀ e ∈ outsideLayers region ky, ∃ c, c ∈ ky ∧
      intersectsG c.geom region = false ∧
      e = MapElem.layer Tag.excluded c.geom (some c.name)) ∧
    (∀ e ∈ outsidePartLayers region ky, ∃ c, c ∈ ky ∧
      intersectsG c.geom region = true ∧
      (clipOut region c.geom).isEmpty = false ∧
      e = MapElem.layer Tag.excluded (clipOut region c.geom) (some c.name)) ∧
    (∀ e ∈ includedElems clipped, ∃ c, c ∈ clipped ∧ c.geom.isEmpty = false ∧
      (e = MapElem.layer Tag.included c.geom (some c.name) ∨
       ∃ a, anchorOf c.geom = some a ∧ e = MapElem.marker a c.name)) ∧
    boundaryLayer region ∈ composeMap region ky clipped ∧
    (∀ i j : Nat, ∀ ei ej : MapElem,
      (composeMap region ky clipped)[i]? = some ei →
      (composeMap region ky clipped)[j]? = some ej →
      ((elemTag ei = some Tag.excluded ∧ elemTag ej = some Tag.boundary) ∨
       (elemTag ei = some Tag.excluded ∧ elemTag ej = some Tag.included) ∨
       (elemTag ei = some Tag.boundary ∧ elemTag ej = some Tag.included)) →
      i < j) := by
  refine ⟨outsideLayers_mem region ky, outsidePartLayers_mem region ky,
    includedElems_mem clipped, ?_, ?_⟩
  · unfold composeMap
    simp
  · intro i j ei ej hi hj hcase
    have zi := compose_zone region ky clipped i ei hi
    have zj := compose_zone region ky clipped j ej hj
    rcases hcase with ⟨h1, h2⟩ | ⟨h1, h2⟩ | ⟨h1, h2⟩
    · have := zi.1 h1
      have := zj.2.1 h2
      omega
    · have := zi.1 h1
      have := zj.2.2 h2
      omega
    · have := zi.2.1 h1
      have := zj.2.2 h2
      omega

/-- Witness for C8: in a concrete composed map, the excluded layer at
position 0 precedes the boundary layer at position 1, which precedes the
included layer at position 2. -/
theorem compose_draw_order_witness : (0 : Nat) < 1 ∧ (1 : Nat) < 2 := by
  have h := compose_draw_order sRegion [cOut] [cIn]
  constructor
  · exact h.2.2.2.2 0 1 (MapElem.layer Tag.excluded cOut.geom (some cOut.name))
      (boundaryLayer sRegion) (by decide) (by decide) (Or.inl ⟨rfl, rfl⟩)
  · exact h.2.2.2.2 1 2 (boundaryLayer sRegion)
      (MapElem.layer Tag.included cIn.geom (some cIn.name)) (by decide) (by decide)
      (Or.inr (Or.inr ⟨rfl, rfl⟩))

/-- Claim C9.  When the anchor dispatch resolves no anchor for a nonempty
clipped geometry, the county's rendered entry is exactly its included layer
without any marker, and that layer still appears in the included block: the
geometry is kept, only the label is omitted. -/
theorem anchorless_geometry_still_rendered (c : County) (clipped : List County)
    (hne : c.geom.isEmpty = false) (han : anchorOf c.geom = none)
    (hmem : c ∈ clipped) :
    includedEntry c = [MapElem.layer Tag.included c.geom (some c.name)] ∧
    MapElem.layer Tag.included c.geom (some c.name) ∈ includedElems clipped := by
  have he : includedEntry c = [MapElem.layer Tag.included c.geom (some c.name)] := by
    unfold includedEntry
    rw [if_neg (by simp [hne]), han]
  refine ⟨he, ?_⟩
  apply List.mem_flatMap.mpr
  refine ⟨c, hmem, ?_⟩
  rw [he]
  exact List.mem_cons_self _ _

/-- Witness for C9 at a county whose clipped geometry is a pure segment, a
kind for which the dispatch resolves no anchor. -/
theorem anchorless_geometry_still_rendered_witness :
    includedEntry lineCounty =
      [MapElem.layer Tag.included lineCounty.geom (some lineCounty.name)] ∧
    MapElem.layer Tag.included lineCounty.geom (some lineCounty.name) ∈
      includedElems [lineCounty] :=
  anchorless_geometry_still_rendered lineCounty [lineCounty]
    (by decide) (by decide) (by decide)

/-- Claim C10.  Every in-state county is routed by the single intersects
test to exactly one of the two rendering paths: it belongs to the
intersecting list or to the outside list, and never to both. -/
theorem intersects_routing_exclusive (region : Geometry) (ky : List County)
    (c : County) (hc : c ∈ ky) :
    (c ∈ intersectingOf region ky ∨ c ∈ outsideOf region ky) ∧
    ¬ (c ∈ intersectingOf region ky ∧ c ∈ outsideOf region ky) := by
  unfold intersectingOf outsideOf
  cases hI : intersectsG c.geom region
  · constructor
    · right
      exact List.mem_filter.mpr ⟨hc, by simp [hI]⟩
    · rintro ⟨h1, _⟩
      have := (List.mem_filter.mp h1).2
      simp [hI] at this
  · constructor
    · left
      exact List.mem_filter.mpr ⟨hc, by simp [hI]⟩
    · rintro ⟨_, h2⟩
      have := (List.mem_filter.mp h2).2
      simp [hI] at this

/-- Witness for C10 at a concrete two-county list. -/
theorem intersects_routing_exclusive_witness :
    (cIn ∈ intersectingOf sRegion [cIn, cOut] ∨
      cIn ∈ outsideOf sRegion [cIn, cOut]) ∧
    ¬ (cIn ∈ intersectingOf sRegion [cIn, cOut] ∧
      cIn ∈ outsideOf sRegion [cIn, cOut]) :=
  intersects_routing_exclusive sRegion [cIn, cOut] cIn (by decide)

end CD6Map
